import Mathlib

/-!
# Verification of the mtgdraft booster-generation and draft-rotation engine

A shallow embedding of `src/services/boosterGenerator.ts`,
`src/services/scryfall.ts` (the pure filtering logic of `fetchListCards`)
and `src/services/HostDraftManager.ts`.

Randomness (`Math.random()` draws, the random-comparator shuffles and the
possibility of a runtime exception inside a generator) is modelled by an
explicit oracle `Rand`: each dynamic draw of the program consults a distinct
index of the oracle, so every concrete execution of the JavaScript code
corresponds to some oracle, and properties proved for all oracles hold for
every execution.
-/

namespace MtgDraft

/-- Embedding of the `ScryfallCard` record (`src/types/index.ts`), restricted
to the fields the booster generator and draft engine read.  `released_at`
dates are modelled as milliseconds since the epoch (the unit `Date.getTime`
yields).  The fields `isFoil`/`isFromList` model the `_isFoil`/`_isFromList`
tags the app adds to augmented copies. -/
structure ScryfallCard where
  id : String
  name : String := ""
  rarity : String := ""
  type_line : String := ""
  finishes : List String := []
  booster : Bool := true
  released_at : Option Int := none
  frame_effects : List String := []
  border_color : String := ""
  layout : String := ""
  frame : String := ""
  promo_types : List String := []
  isFoil : Bool := false
  isFromList : Bool := false
  deriving Repr, DecidableEq, Inhabited

/-- Embedding of the `Booster` record: cards plus source set and product type. -/
structure Booster where
  cards : List ScryfallCard
  setCode : String
  boosterType : String
  deriving Repr, DecidableEq, Inhabited

/-- JavaScript `String.prototype.includes`, on the character lists. -/
def strIncludes (s sub : String) : Bool := decide (List.IsInfix sub.data s.data)

/-- Embedding of the `CardPool` record; the optional `variants`/`foilOnly`
fields are always initialized by `buildCardPool`, so they are plain lists. -/
structure CardPool where
  commons : List ScryfallCard
  uncommons : List ScryfallCard
  rares : List ScryfallCard
  mythics : List ScryfallCard
  basicLands : List ScryfallCard
  variants : List ScryfallCard
  foilOnly : List ScryfallCard
  all : List ScryfallCard
  deriving Repr, DecidableEq, Inhabited

/-- The pure-promo test of `buildCardPool` (boosterGenerator.ts lines 32-37). -/
def isPromoCard (card : ScryfallCard) : Bool :=
  card.promo_types.contains "buyabox" ||
  card.promo_types.contains "bundle" ||
  card.promo_types.contains "prerelease" ||
  card.promo_types.contains "judge_gift"

/-- The variant (Booster Fun) test of `buildCardPool` (lines 42-48). -/
def isVariantCard (card : ScryfallCard) : Bool :=
  !card.booster && (
    !card.frame_effects.isEmpty ||
    card.border_color == "borderless" ||
    card.promo_types.contains "boosterfun" ||
    card.frame == "showcase" ||
    card.frame == "extendedart")

/-- One iteration of the first classification loop of `buildCardPool`
(lines 20-75): rules applied in order, first match wins. -/
def classifyCard (pool : CardPool) (card : ScryfallCard) : CardPool :=
  if card.layout == "token" || card.layout == "art_series" then pool
  else if strIncludes card.type_line "Basic Land" then
    { pool with basicLands := pool.basicLands ++ [card] }
  else if isPromoCard card then pool
  else if isVariantCard card then
    { pool with variants := pool.variants ++ [card] }
  else if !card.booster then pool
  else if card.rarity == "common" then { pool with commons := pool.commons ++ [card] }
  else if card.rarity == "uncommon" then { pool with uncommons := pool.uncommons ++ [card] }
  else if card.rarity == "rare" then { pool with rares := pool.rares ++ [card] }
  else if card.rarity == "mythic" then { pool with mythics := pool.mythics ++ [card] }
  else pool

/-- The second pass of `buildCardPool` (lines 83-89): a card is foil-only when
its finishes include `foil` but not `nonfoil`. -/
def isFoilOnly (card : ScryfallCard) : Bool :=
  card.finishes.contains "foil" && !card.finishes.contains "nonfoil"

/-- Embedding of `buildCardPool` (boosterGenerator.ts lines 8-92): first pass
classifies every card, second pass collects the foil-only cards; `all` holds
the unfiltered input list. -/
def buildCardPool (cards : List ScryfallCard) : CardPool :=
  let pool := cards.foldl classifyCard ⟨[], [], [], [], [], [], [], cards⟩
  { pool with foilOnly := pool.foilOnly ++ cards.filter isFoilOnly }

/-- The randomness oracle.  `ix k` models the value `Math.floor(Math.random()
* arr.length)` of the k-th uniform index draw (reduced mod the array length at
use site, which is exactly the range the draw can take); `coin k` models the
k-th probability-threshold comparison `Math.random() < p`; `roll k` models the
k-th wildcard rarity roll as a value in thousandths (compared against 490, 840
and 965); `shuf k` models the k-th random-comparator shuffle
`[...arr].sort(() => Math.random() - 0.5)`, which produces some permutation of
the array; `genThrows k` models whether a runtime exception is raised inside
the k-th family-generator invocation (caught by `generateBooster`). -/
structure Rand where
  ix : Nat → Nat
  coin : Nat → Bool
  roll : Nat → Nat
  shuf : Nat → List ScryfallCard → List ScryfallCard
  shuf_perm : ∀ k l, List.Perm (shuf k l) l
  genThrows : Nat → Bool

/-- A concrete deterministic oracle (index draws 0, coins false, identity
shuffles), used to instantiate universally quantified theorems. -/
def idRand : Rand where
  ix := fun _ => 0
  coin := fun _ => false
  roll := fun _ => 0
  shuf := fun _ l => l
  shuf_perm := fun _ _ => List.Perm.refl _
  genThrows := fun _ => false

/-- Embedding of `pickRandom` (line 97): `arr[Math.floor(Math.random() *
arr.length)]`.  On a non-empty array this is the entry at the drawn index; on
an empty array the JavaScript expression is `undefined` and no caller uses the
result, modelled by the `default` card. -/
def pickRandom (R : Rand) (k : Nat) (arr : List ScryfallCard) : ScryfallCard :=
  arr.getD (R.ix k % arr.length) default

/-- Embedding of `canBeFoil` (line 104). -/
def canBeFoil (card : ScryfallCard) : Bool := card.finishes.contains "foil"

/-- Embedding of `pickFoilCard` (lines 113-129): 15% chance (coin `k`) of a
foil-only special variant, otherwise any foil-eligible card, else `null`. -/
def pickFoilCard (R : Rand) (k : Nat) (pool : CardPool) : Option ScryfallCard :=
  let foilable := pool.all.filter canBeFoil
  if pool.foilOnly.length > 0 && R.coin k then
    some { pickRandom R (k + 1) pool.foilOnly with isFoil := true }
  else if foilable.length > 0 then
    some { pickRandom R (k + 2) foilable with isFoil := true }
  else
    none

/-- The `while (result.length < n)` loop of `pickRandomN` (lines 140-151),
recursing on the number `rem` of cards still needed: if the array has at least
`rem` cards, a fresh shuffle is truncated to `rem`; otherwise a whole fresh
shuffle is appended and the loop continues. -/
def pickNLoop (R : Rand) (arr : List ScryfallCard) (hne : arr ≠ []) :
    Nat → Nat → List ScryfallCard
  | k, rem =>
    if rem = 0 then []
    else if arr.length ≥ rem then (R.shuf k arr).take rem
    else R.shuf k arr ++ pickNLoop R arr hne (k + 1) (rem - arr.length)
  termination_by _ rem => rem
  decreasing_by
    simp_wf
    have h1 : 0 < arr.length := List.length_pos.mpr hne
    omega

/-- Embedding of `pickRandomN` (lines 134-154): guards for non-positive `n`
and the empty array, then the sampling loop, then `slice(0, n)`. -/
def pickRandomN (R : Rand) (k : Nat) (arr : List ScryfallCard) (n : Nat) :
    List ScryfallCard :=
  if n = 0 then []
  else if h : arr = [] then []
  else (pickNLoop R arr h k n).take n

/-- The source-bucket selection of `safePick` (lines 162-169). -/
def rarityBucket (pool : CardPool) (preferredRarity : String) : List ScryfallCard :=
  if preferredRarity == "common" then pool.commons
  else if preferredRarity == "uncommon" then pool.uncommons
  else if preferredRarity == "rare" then pool.rares
  else if preferredRarity == "mythic" then pool.mythics
  else if preferredRarity == "land" then pool.basicLands
  else []

/-- The adjacent-rarity fallback chain of `safePick` (lines 190-206). -/
def fallbackBucket (pool : CardPool) (preferredRarity : String) : List ScryfallCard :=
  if preferredRarity == "common" then pool.uncommons ++ pool.rares
  else if preferredRarity == "uncommon" then pool.commons ++ pool.rares
  else if preferredRarity == "rare" then pool.mythics ++ pool.uncommons ++ pool.commons
  else if preferredRarity == "mythic" then pool.rares ++ pool.uncommons ++ pool.commons
  else if preferredRarity == "land" then pool.commons
  else []

/-- Embedding of `safePick` (lines 159-219): take from the preferred bucket,
draw any shortfall from the adjacent-rarity fallback chain, and as a final
fallback from the entire unfiltered pool. -/
def safePick (R : Rand) (k : Nat) (pool : CardPool) (count : Nat)
    (preferredRarity : String) : List ScryfallCard :=
  let source := rarityBucket pool preferredRarity
  if source.length ≥ count then pickRandomN R k source count
  else
    let picked := if source.length > 0 then pickRandomN R k source source.length else []
    let remaining := count - picked.length
    if remaining > 0 then
      let fb := fallbackBucket pool preferredRarity
      let fallbackPool := if fb.length = 0 then pool.all else fb
      if fallbackPool.length > 0 then picked ++ pickRandomN R (k + 50) fallbackPool remaining
      else picked
    else picked

/-- Embedding of `pickRareOrMythic` (lines 225-246).  The rare/mythic choice
(`Math.random() < mythicChance`, 1/7 for Play Boosters and 1/8 otherwise) is
the coin at index `k`; `true` means mythic. -/
def pickRareOrMythic (R : Rand) (k : Nat) (pool : CardPool)
    (usePlayBoosterRatio : Bool) : ScryfallCard :=
  if pool.mythics.length = 0 then
    if pool.rares.length = 0 then (safePick R k pool 1 "uncommon").headD default
    else pickRandom R k pool.rares
  else if pool.rares.length = 0 then pickRandom R k pool.mythics
  else if R.coin k then pickRandom R (k + 1) pool.mythics
  else
    let _ := usePlayBoosterRatio
    pickRandom R (k + 1) pool.rares

/-- The `getPoolWithVariants` helper of `pickWildcard` (lines 257-271): mixes
a standard bucket with the same-rarity variants; the coin models the 30%
chance to prefer the variant pool. -/
def getPoolWithVariants (R : Rand) (k : Nat) (pool : CardPool)
    (standard : List ScryfallCard) (rarity : String) : List ScryfallCard :=
  let variants := pool.variants.filter (fun c => c.rarity == rarity)
  if standard.length = 0 && variants.length = 0 then []
  else if standard.length = 0 then variants
  else if variants.length = 0 then standard
  else if R.coin k then variants
  else standard

/-- Embedding of `pickWildcard` (lines 253-294): one rarity roll compared to
the nested thresholds 0.49 / 0.84 / 0.965 (modelled in thousandths), each
stage skipped when its mixed bucket is empty, with `pool.all` as the absolute
fallback. -/
def pickWildcard (R : Rand) (k : Nat) (pool : CardPool) : ScryfallCard :=
  let roll := R.roll k
  let sC := getPoolWithVariants R (k + 1) pool pool.commons "common"
  let sU := getPoolWithVariants R (k + 2) pool pool.uncommons "uncommon"
  let sR := getPoolWithVariants R (k + 3) pool pool.rares "rare"
  let sM := getPoolWithVariants R (k + 4) pool pool.mythics "mythic"
  if roll < 490 && sC.length > 0 then pickRandom R (k + 5) sC
  else if roll < 840 && sU.length > 0 then pickRandom R (k + 6) sU
  else if roll < 965 && sR.length > 0 then pickRandom R (k + 7) sR
  else if sM.length > 0 then pickRandom R (k + 8) sM
  else pickRandom R (k + 9) pool.all

/-- Milliseconds of the ±6-month window of `fetchListCards` (scryfall.ts
line 457): `6 * 30` days, the code dividing the millisecond difference by
`1000 * 60 * 60 * 24 * 30` and comparing to 6. -/
def sixMonthsMs : Int := 6 * 30 * 24 * 60 * 60 * 1000

/-- The release-date window test of `fetchListCards` (lines 453-459): the
card has a release date within the ±6-month (180-day) window of `target`. -/
def withinSixMonths (target : Int) (card : ScryfallCard) : Bool :=
  match card.released_at with
  | none => false
  | some d => (target - d).natAbs ≤ sixMonthsMs.toNat

/-- Embedding of the pure filtering logic of `fetchListCards` (scryfall.ts
lines 432-466), given the fetched full List `allListCards`: with a release
date, filter to the ±6-month window and use the filtered set only when it
has more than 50 cards, otherwise the full list. -/
def fetchListCards (allListCards : List ScryfallCard) (releaseDate : Option Int) :
    List ScryfallCard :=
  match releaseDate with
  | none => allListCards
  | some target =>
    let filtered := allListCards.filter (withinSixMonths target)
    if filtered.length > 50 then filtered else allListCards

/-- Embedding of `generatePlayBooster` (lines 307-361), 14 slots.  The result
of the awaited `fetchListCards` call is the `listFetch` parameter (`Except`
models the `try`/`catch` around it); the coin at `k + 10` is the 12.5% List
chance. -/
def generatePlayBooster (R : Rand) (k : Nat) (pool : CardPool)
    (listFetch : Except String (List ScryfallCard)) : List ScryfallCard :=
  let slot1to6 := safePick R k pool 6 "common"
  let slot7 :=
    if R.coin (k + 10) then
      match listFetch with
      | .ok listCards =>
        if listCards.length > 0 then [{ pickRandom R (k + 11) listCards with isFromList := true }]
        else safePick R (k + 12) pool 1 "common"
      | .error _ => safePick R (k + 12) pool 1 "common"
    else safePick R (k + 12) pool 1 "common"
  let slot8to10 := safePick R (k + 120) pool 3 "uncommon"
  let slot11 := [pickRareOrMythic R (k + 230) pool true]
  let slot12 :=
    if pool.basicLands.length > 0 then [pickRandom R (k + 240) pool.basicLands]
    else safePick R (k + 241) pool 1 "common"
  let slot13 := [pickWildcard R (k + 340) pool]
  let slot14 :=
    match pickFoilCard R (k + 360) pool with
    | some foilCard => [foilCard]
    | none => [pickWildcard R (k + 370) pool]
  slot1to6 ++ slot7 ++ slot8to10 ++ slot11 ++ slot12 ++ slot13 ++ slot14

/-- Embedding of `generateDraftBooster` (lines 371-392), 15 slots. -/
def generateDraftBooster (R : Rand) (k : Nat) (pool : CardPool) :
    List ScryfallCard :=
  let slot1to10 := safePick R k pool 10 "common"
  let slot11to13 := safePick R (k + 100) pool 3 "uncommon"
  let slot14 := [pickRareOrMythic R (k + 200) pool false]
  let slot15 :=
    if pool.basicLands.length > 0 then [pickRandom R (k + 210) pool.basicLands]
    else safePick R (k + 211) pool 1 "common"
  slot1to10 ++ slot11to13 ++ slot14 ++ slot15

/-- Embedding of `generateSetBooster` (lines 397-441), 12 slots; the coin at
`k + 430` is the 50/50 rare-or-foil choice of slot 10. -/
def generateSetBooster (R : Rand) (k : Nat) (pool : CardPool) :
    List ScryfallCard :=
  let mixed := pool.commons ++ pool.uncommons
  let mixedPool :=
    if mixed.length = 0 then
      if pool.rares.length > 0 then mixed ++ pool.rares else mixed ++ pool.all
    else mixed
  let slot1to6 := pickRandomN R k mixedPool 6
  let slot7to8 := safePick R (k + 100) pool 2 "uncommon"
  let slot9 := [pickRareOrMythic R (k + 200) pool false]
  let slot10 :=
    if R.coin (k + 430) then [pickRareOrMythic R (k + 431) pool false]
    else
      match pickFoilCard R (k + 440) pool with
      | some foilCard => [foilCard]
      | none => [pickWildcard R (k + 450) pool]
  let slot11 :=
    if pool.basicLands.length > 0 then [pickRandom R (k + 460) pool.basicLands]
    else safePick R (k + 461) pool 1 "common"
  let slot12 := safePick R (k + 560) pool 1 "common"
  slot1to6 ++ slot7to8 ++ slot9 ++ slot10 ++ slot11 ++ slot12

/-- Embedding of `generateGenericBooster` (lines 447-459): a loose Play
Booster structure capped at 15 cards. -/
def generateGenericBooster (R : Rand) (k : Nat) (pool : CardPool) :
    List ScryfallCard :=
  (safePick R k pool 9 "common" ++ safePick R (k + 100) pool 3 "uncommon" ++
    [pickRareOrMythic R (k + 200) pool false] ++ [pickWildcard R (k + 210) pool]).take 15

/-- Embedding of `generateBooster` (lines 464-510): fails exactly when the
card list is empty; otherwise dispatches on the booster type, and a runtime
exception inside the family generator (`R.genThrows k`) is caught by the
`try`/`catch` and replaced by the generic fallback generation. -/
def generateBooster (R : Rand) (k : Nat) (cards : List ScryfallCard)
    (setCode boosterType : String)
    (listFetch : Except String (List ScryfallCard)) : Except String Booster :=
  if cards.length = 0 then
    .error ("No booster-eligible cards found for set " ++ setCode)
  else
    let pool := buildCardPool cards
    let boosterCards :=
      if R.genThrows k then generateGenericBooster R (k + 10000) pool
      else if boosterType == "play" then generatePlayBooster R k pool listFetch
      else if boosterType == "draft" then generateDraftBooster R k pool
      else if boosterType == "set" then generateSetBooster R k pool
      else generateGenericBooster R k pool
  .ok { cards := boosterCards, setCode := setCode, boosterType := boosterType }

/-- Sequencing of a fallible step over a list (the awaited `for` loops of
`generateDraftBoosters`): the first error propagates. -/
def exceptMapM (f : Nat → Except String Booster) : List Nat → Except String (List Booster)
  | [] => .ok []
  | a :: as =>
    match f a, exceptMapM f as with
    | .ok b, .ok bs => .ok (b :: bs)
    | .error e, _ => .error e
    | .ok _, .error e => .error e

/-- The outer `for` loop of `generateDraftBoosters`: one row of boosters per
pack round, the first error propagating. -/
def boosterGrid (gen : Nat → Except String Booster) (numberOfPlayers : Nat) :
    List Nat → Except String (List (List Booster))
  | [] => .ok []
  | p :: ps =>
    match exceptMapM (fun q => gen (p * numberOfPlayers + q)) (List.range numberOfPlayers),
        boosterGrid gen numberOfPlayers ps with
    | .ok row, .ok rows => .ok (row :: rows)
    | .error e, _ => .error e
    | .ok _, .error e => .error e

/-- Embedding of `generateDraftBoosters` (lines 515-548): fails exactly when
the fetched card list is empty, else one booster per (pack round, player)
pair, grouped by pack round.  Booster number `p * numberOfPlayers + q` uses
its own slice of the oracle and its own fetched List result. -/
def generateDraftBoosters (R : Rand) (cards : List ScryfallCard)
    (setCode boosterType : String) (numberOfPacks numberOfPlayers : Nat)
    (listFetch : Nat → Except String (List ScryfallCard)) :
    Except String (List (List Booster)) :=
  if cards.length = 0 then
    .error ("No booster-eligible cards found for set " ++ setCode)
  else
    boosterGrid
      (fun b => generateBooster R (b * 100000) cards setCode boosterType (listFetch b))
      numberOfPlayers (List.range numberOfPacks)

/-! ## The draft rotation engine (`src/services/HostDraftManager.ts`) -/

/-- Embedding of the per-seat `PlayerState` record (HostDraftManager.ts
lines 9-16), restricted to the draft-relevant fields. -/
structure PlayerState where
  id : String
  picks : List ScryfallCard
  currentHand : List ScryfallCard
  hasPicked : Bool
  deriving Repr, DecidableEq, Inhabited

/-- The mutable state of `HostDraftManager` (lines 19-23):
`unopenedPacks[playerIndex][packIndex]` is a card list. -/
structure DraftState where
  players : List PlayerState
  unopenedPacks : List (List (List ScryfallCard))
  packNumber : Nat
  totalPacks : Nat
  isDrafting : Bool
  deriving Repr, DecidableEq, Inhabited

/-- JavaScript `Array.prototype.findIndex` over card ids (`processPick`
line 172), as an optional index. -/
def findCardIdx (cardId : String) : List ScryfallCard → Option Nat
  | [] => none
  | c :: cs => if c.id == cardId then some 0 else (findCardIdx cardId cs).map (· + 1)

/-- Embedding of `openNextPack` (lines 134-150): past the last pack it only
finishes the draft (a broadcast, no state change); otherwise every seat gets
its pack for the current round (empty if missing) and its pick flag reset. -/
def openNextPack (s : DraftState) : DraftState :=
  if s.totalPacks ≤ s.packNumber then s
  else
    { s with players := (List.range s.players.length).map (fun i =>
        { s.players.getD i default with
          currentHand := (s.unopenedPacks.getD i []).getD s.packNumber []
          hasPicked := false }) }

/-- Embedding of `rotatePacks` (lines 192-217): if seat 0's hand is empty,
advance to the next pack round; otherwise pass every hand left (even pack
index, seat `i` receives the hand of seat `(i - 1 + n) % n`) or right (odd
pack index, seat `i` receives the hand of seat `(i + 1) % n`). -/
def rotatePacks (s : DraftState) : DraftState :=
  if (s.players.headD default).currentHand.length = 0 then
    openNextPack { s with packNumber := s.packNumber + 1 }
  else
    let currentHands := s.players.map (fun p => p.currentHand)
    let n := s.players.length
    if s.packNumber % 2 = 0 then
      { s with players := (List.range n).map (fun i =>
          { s.players.getD i default with
            currentHand := currentHands.getD ((i + n - 1) % n) []
            hasPicked := false }) }
    else
      { s with players := (List.range n).map (fun i =>
          { s.players.getD i default with
            currentHand := currentHands.getD ((i + 1) % n) []
            hasPicked := false }) }

/-- Embedding of `processPick` (lines 169-190) acting on the seat at index
`pi`: a seat that already picked this round, or a card id not present in its
current hand, leaves the state unchanged; otherwise the card moves from the
hand to the seat's picks, the pick flag is set, and if every seat has now
picked the packs rotate. -/
def processPick (s : DraftState) (pi : Nat) (cardId : String) : DraftState :=
  match s.players[pi]? with
  | none => s
  | some player =>
    if player.hasPicked then s
    else
      match findCardIdx cardId player.currentHand with
      | none => s
      | some ci =>
        let card := player.currentHand.getD ci default
        let pl := { player with
          currentHand := player.currentHand.eraseIdx ci
          picks := player.picks ++ [card]
          hasPicked := true }
        let s1 := { s with players := s.players.set pi pl }
        if s1.players.all (fun p => p.hasPicked) then rotatePacks s1 else s1

/-- A freshly joined seat (`handleJoin`/`addHostPlayer`, lines 81-111). -/
def freshPlayer (id : String) : PlayerState :=
  { id := id, picks := [], currentHand := [], hasPicked := false }

/-- Embedding of `startDraft` (lines 115-132): store the packs, set
`totalPacks` from seat 0's pack list, reset the pack counter and deal the
first round. -/
def startDraft (s : DraftState) (allPacks : List (List (List ScryfallCard))) :
    DraftState :=
  openNextPack { s with
    unopenedPacks := allPacks
    totalPacks := (allPacks.getD 0 []).length
    isDrafting := true
    packNumber := 0 }

/-- The lobby state for a list of seat ids followed by `startDraft`: the
initial state of a hosted draft. -/
def initState (ids : List String) (allPacks : List (List (List ScryfallCard))) :
    DraftState :=
  startDraft
    { players := ids.map freshPlayer
      unopenedPacks := []
      packNumber := 0
      totalPacks := 3
      isDrafting := false }
    allPacks

/-- States reachable from `init` by any sequence of pick requests (every
external mutation of a running draft goes through `processPick`). -/
inductive Reach (init : DraftState) : DraftState → Prop
  | refl : Reach init init
  | pick {s : DraftState} (pi : Nat) (cardId : String) :
      Reach init s → Reach init (processPick s pi cardId)

/-- Well-formedness of the pack grid handed to `startDraft`, as produced by
`generateDraftBoosters` plus the reorientation in `App.tsx`: one pack list
per seat, every seat has the same number of packs, and within one round all
packs have the same size. -/
structure PacksOK (ids : List String) (allPacks : List (List (List ScryfallCard))) : Prop where
  ids_ne : ids ≠ []
  len_eq : allPacks.length = ids.length
  rounds_eq : ∀ pl ∈ allPacks, pl.length = (allPacks.getD 0 []).length
  sizes_eq : ∀ r : Nat, ∀ pl ∈ allPacks,
    (pl.getD r []).length = ((allPacks.getD 0 []).getD r []).length

/-- The multiset of cards currently held in hands plus accumulated picks,
across all seats. -/
def handsPlusPicks (s : DraftState) : Multiset ScryfallCard :=
  (s.players.map (fun p => (p.currentHand : Multiset ScryfallCard) + (p.picks : Multiset ScryfallCard))).sum

/-- The multiset of all accumulated picks across all seats. -/
def allPicks (s : DraftState) : Multiset ScryfallCard :=
  (s.players.map (fun p => (p.picks : Multiset ScryfallCard))).sum

/-- The number of pack rounds dealt so far: rounds `0, …, packNumber` have
been opened, capped by the pack count. -/
def dealtRounds (s : DraftState) : Nat := min (s.packNumber + 1) s.totalPacks

/-- The multiset of all cards dealt in rounds `0, …, upTo - 1` to all seats. -/
def dealtUpTo (s : DraftState) (upTo : Nat) : Multiset ScryfallCard :=
  ((List.range s.players.length).map (fun i =>
    ((List.range upTo).map (fun r =>
      ((s.unopenedPacks.getD i []).getD r [] : Multiset ScryfallCard))).sum)).sum

/-- The multiset of cards dealt so far. -/
def dealtCards (s : DraftState) : Multiset ScryfallCard := dealtUpTo s (dealtRounds s)

/-- The multiset of cards currently held in hands across all seats. -/
def handsM (s : DraftState) : Multiset ScryfallCard :=
  (s.players.map (fun p => (p.currentHand : Multiset ScryfallCard))).sum

/-- The multiset of cards dealt to all seats in pack round `r`. -/
def roundM (s : DraftState) (r : Nat) : Multiset ScryfallCard :=
  ((List.range s.players.length).map (fun i =>
    ((s.unopenedPacks.getD i []).getD r [] : Multiset ScryfallCard))).sum

/-- The inductive invariant of the rotation engine for a draft started from
seats `ids` and pack grid `allPacks`: the static fields are fixed, the pack
counter is in range, cards are conserved (hands plus picks equal the cards
dealt so far), every seat has the same hand size after accounting for its
pick flag, and past the last pack all hands are empty. -/
structure Inv (ids : List String) (allPacks : List (List (List ScryfallCard)))
    (s : DraftState) : Prop where
  players_len : s.players.length = ids.length
  packs_eq : s.unopenedPacks = allPacks
  total_eq : s.totalPacks = (allPacks.getD 0 []).length
  pk_le : s.packNumber ≤ s.totalPacks
  conserve : handsPlusPicks s = dealtCards s
  uniform : ∃ m, ∀ p ∈ s.players,
    p.currentHand.length + (if p.hasPicked then 1 else 0) = m
  terminal : s.packNumber = s.totalPacks → ∀ p ∈ s.players, p.currentHand = []

/-! ## Concrete fixtures used to instantiate the theorems -/

/-- A booster-eligible common card, used in concrete instantiations. -/
def cardA : ScryfallCard := { id := "a", name := "Alpha", rarity := "common" }

/-- A second booster-eligible common card. -/
def cardB : ScryfallCard := { id := "b", name := "Beta", rarity := "common" }

/-- A foil-only card: its finishes include `foil` but not `nonfoil`. -/
def cardF : ScryfallCard :=
  { id := "f", name := "Foil", rarity := "rare", finishes := ["foil"] }

/-- A List card released at the epoch. -/
def cardL : ScryfallCard := { id := "l", name := "Listed", released_at := some 0 }

/-- A List card with no recorded release date (always outside the window). -/
def cardN : ScryfallCard := { id := "n", name := "NoDate" }

/-- Two concrete seat ids. -/
def idsEx : List String := ["p0", "p1"]

/-- A concrete one-round pack grid: seat 0 gets `[cardA]`, seat 1 `[cardB]`. -/
def packsEx : List (List (List ScryfallCard)) := [[[cardA]], [[cardB]]]

/-- A concrete mid-draft state: two seats, both picked, one card left each. -/
def sEx : DraftState :=
  { players :=
      [{ id := "p0", picks := [], currentHand := [cardA], hasPicked := true },
       { id := "p1", picks := [], currentHand := [cardB], hasPicked := true }]
    unopenedPacks := packsEx
    packNumber := 0
    totalPacks := 1
    isDrafting := true }

/-! ## Lemmas about the slot pickers -/

theorem pickNLoop_length (R : Rand) (arr : List ScryfallCard) (hne : arr ≠ []) :
    ∀ rem k, (pickNLoop R arr hne k rem).length = rem := by
  intro rem
  induction rem using Nat.strong_induction_on with
  | _ rem ih =>
    intro k
    unfold pickNLoop
    by_cases h0 : rem = 0
    · simp [h0]
    · rw [if_neg h0]
      by_cases h1 : arr.length ≥ rem
      · rw [if_pos h1, List.length_take]
        have := (R.shuf_perm k arr).length_eq
        omega
      · rw [if_neg h1, List.length_append]
        have hpos : 0 < arr.length := List.length_pos.mpr hne
        rw [ih (rem - arr.length) (by omega) (k + 1)]
        have := (R.shuf_perm k arr).length_eq
        omega

theorem pickNLoop_mem (R : Rand) (arr : List ScryfallCard) (hne : arr ≠ []) :
    ∀ rem k x, x ∈ pickNLoop R arr hne k rem → x ∈ arr := by
  intro rem
  induction rem using Nat.strong_induction_on with
  | _ rem ih =>
    intro k x hx
    unfold pickNLoop at hx
    by_cases h0 : rem = 0
    · simp [h0] at hx
    · rw [if_neg h0] at hx
      by_cases h1 : arr.length ≥ rem
      · rw [if_pos h1] at hx
        exact (R.shuf_perm k arr).mem_iff.mp (List.mem_of_mem_take hx)
      · rw [if_neg h1] at hx
        have hpos : 0 < arr.length := List.length_pos.mpr hne
        rcases List.mem_append.mp hx with h | h
        · exact (R.shuf_perm k arr).mem_iff.mp h
        · exact ih (rem - arr.length) (by omega) (k + 1) x h

theorem pickNLoop_subperm (R : Rand) (arr : List ScryfallCard) (hne : arr ≠ [])
    (rem k : Nat) (h : rem ≤ arr.length) :
    List.Subperm (pickNLoop R arr hne k rem) arr := by
  unfold pickNLoop
  by_cases h0 : rem = 0
  · simp [h0]
  · rw [if_neg h0, if_pos h]
    exact ((List.take_sublist rem (R.shuf k arr)).subperm).trans
      (R.shuf_perm k arr).subperm

theorem pickRandomN_length (R : Rand) (k : Nat) (arr : List ScryfallCard)
    (n : Nat) (hne : arr ≠ []) : (pickRandomN R k arr n).length = n := by
  unfold pickRandomN
  by_cases h0 : n = 0
  · simp [h0]
  · rw [if_neg h0, dif_neg hne, List.length_take, pickNLoop_length R arr hne n k]
    omega

theorem pickRandomN_mem (R : Rand) (k : Nat) (arr : List ScryfallCard)
    (n : Nat) : ∀ x ∈ pickRandomN R k arr n, x ∈ arr := by
  intro x hx
  unfold pickRandomN at hx
  by_cases h0 : n = 0
  · simp [h0] at hx
  · rw [if_neg h0] at hx
    by_cases hne : arr = []
    · rw [dif_pos hne] at hx
      simp at hx
    · rw [dif_neg hne] at hx
      exact pickNLoop_mem R arr hne n k x (List.mem_of_mem_take hx)

theorem pickRandomN_subperm (R : Rand) (k : Nat) (arr : List ScryfallCard)
    (n : Nat) (h : n ≤ arr.length) :
    List.Subperm (pickRandomN R k arr n) arr := by
  unfold pickRandomN
  by_cases h0 : n = 0
  · simp [h0]
  · rw [if_neg h0]
    by_cases hne : arr = []
    · rw [dif_pos hne]
      simp
    · rw [dif_neg hne]
      exact ((List.take_sublist n _).subperm).trans (pickNLoop_subperm R arr hne n k h)

theorem safePick_length (R : Rand) (k : Nat) (pool : CardPool) (count : Nat)
    (pr : String) (hall : pool.all ≠ []) :
    (safePick R k pool count pr).length = count := by
  unfold safePick
  by_cases h1 : (rarityBucket pool pr).length ≥ count
  · rw [if_pos h1]
    by_cases hc : count = 0
    · subst hc
      simp [pickRandomN]
    · have hsne : rarityBucket pool pr ≠ [] := by
        intro hemp
        rw [hemp] at h1
        simp at h1
        omega
      exact pickRandomN_length R k _ count hsne
  · rw [if_neg h1]
    push_neg at h1
    have hpicked : (if (rarityBucket pool pr).length > 0 then
        pickRandomN R k (rarityBucket pool pr) (rarityBucket pool pr).length
        else []).length = (rarityBucket pool pr).length := by
      by_cases hp : (rarityBucket pool pr).length > 0
      · rw [if_pos hp]
        exact pickRandomN_length R k _ _ (by
          intro hemp; rw [hemp] at hp; simp at hp)
      · rw [if_neg hp]
        simp
        omega
    simp only [hpicked]
    have hrem : count - (rarityBucket pool pr).length > 0 := by omega
    rw [if_pos hrem]
    have hfb : (if (fallbackBucket pool pr).length = 0 then pool.all
        else fallbackBucket pool pr) ≠ [] := by
      by_cases hf : (fallbackBucket pool pr).length = 0
      · rw [if_pos hf]; exact hall
      · rw [if_neg hf]
        intro hemp
        rw [hemp] at hf
        simp at hf
    have hfb_len : 0 < (if (fallbackBucket pool pr).length = 0 then pool.all
        else fallbackBucket pool pr).length := List.length_pos.mpr hfb
    rw [if_pos hfb_len, List.length_append, hpicked,
      pickRandomN_length R (k + 50) _ _ hfb]
    omega

theorem classifyCard_all (pool : CardPool) (card : ScryfallCard) :
    (classifyCard pool card).all = pool.all := by
  unfold classifyCard
  repeat' split
  all_goals rfl

theorem foldl_classify_all (cards : List ScryfallCard) :
    ∀ pool : CardPool, (cards.foldl classifyCard pool).all = pool.all := by
  induction cards with
  | nil => intro pool; rfl
  | cons c cs ih =>
    intro pool
    rw [List.foldl_cons, ih (classifyCard pool c), classifyCard_all]

theorem buildCardPool_all (cards : List ScryfallCard) :
    (buildCardPool cards).all = cards := by
  unfold buildCardPool
  rw [foldl_classify_all]

theorem buildCardPool_foilOnly (cards : List ScryfallCard) :
    (buildCardPool cards).foilOnly =
      (cards.foldl classifyCard ⟨[], [], [], [], [], [], [], cards⟩).foilOnly
        ++ cards.filter isFoilOnly := rfl

theorem classifyCard_foilOnly (pool : CardPool) (card : ScryfallCard) :
    (classifyCard pool card).foilOnly = pool.foilOnly := by
  unfold classifyCard
  repeat' split
  all_goals rfl

theorem foldl_classify_foilOnly (cards : List ScryfallCard) :
    ∀ pool : CardPool, (cards.foldl classifyCard pool).foilOnly = pool.foilOnly := by
  induction cards with
  | nil => intro pool; rfl
  | cons c cs ih =>
    intro pool
    rw [List.foldl_cons, ih (classifyCard pool c), classifyCard_foilOnly]

theorem buildCardPool_foilOnly_eq (cards : List ScryfallCard) :
    (buildCardPool cards).foilOnly = cards.filter isFoilOnly := by
  rw [buildCardPool_foilOnly, foldl_classify_foilOnly]
  rfl

/-- The land slot shared by all three family generators (land, falling back
to one common) always contributes exactly one card. -/
theorem landSlot_length (R : Rand) (k1 k2 : Nat) (pool : CardPool)
    (hall : pool.all ≠ []) :
    (if pool.basicLands.length > 0 then [pickRandom R k1 pool.basicLands]
      else safePick R k2 pool 1 "common").length = 1 := by
  split
  · rfl
  · exact safePick_length R k2 pool 1 "common" hall

theorem generateDraftBooster_length (R : Rand) (k : Nat) (pool : CardPool)
    (hall : pool.all ≠ []) : (generateDraftBooster R k pool).length = 15 := by
  unfold generateDraftBooster
  simp only [List.length_append, List.length_singleton]
  rw [safePick_length R k pool 10 "common" hall,
    safePick_length R (k + 100) pool 3 "uncommon" hall,
    landSlot_length R (k + 210) (k + 211) pool hall]

theorem generatePlayBooster_length (R : Rand) (k : Nat) (pool : CardPool)
    (listFetch : Except String (List ScryfallCard)) (hall : pool.all ≠ []) :
    (generatePlayBooster R k pool listFetch).length = 14 := by
  have hslot7 : (if R.coin (k + 10) then
      match listFetch with
      | .ok listCards =>
        if listCards.length > 0 then [{ pickRandom R (k + 11) listCards with isFromList := true }]
        else safePick R (k + 12) pool 1 "common"
      | .error _ => safePick R (k + 12) pool 1 "common"
    else safePick R (k + 12) pool 1 "common").length = 1 := by
    split
    · split
      · split
        · rfl
        · exact safePick_length R (k + 12) pool 1 "common" hall
      · exact safePick_length R (k + 12) pool 1 "common" hall
    · exact safePick_length R (k + 12) pool 1 "common" hall
  have hslot14 : (match pickFoilCard R (k + 360) pool with
    | some foilCard => [foilCard]
    | none => [pickWildcard R (k + 370) pool]).length = 1 := by
    split
    · rfl
    · rfl
  unfold generatePlayBooster
  simp only [List.length_append, List.length_singleton]
  rw [safePick_length R k pool 6 "common" hall, hslot7,
    safePick_length R (k + 120) pool 3 "uncommon" hall,
    landSlot_length R (k + 240) (k + 241) pool hall, hslot14]

theorem generateSetBooster_length (R : Rand) (k : Nat) (pool : CardPool)
    (hall : pool.all ≠ []) : (generateSetBooster R k pool).length = 12 := by
  have hmixed : (if pool.commons.length + pool.uncommons.length = 0 then
      if pool.rares.length > 0 then pool.commons ++ pool.uncommons ++ pool.rares
      else pool.commons ++ pool.uncommons ++ pool.all
    else pool.commons ++ pool.uncommons) ≠ [] := by
    by_cases hm : pool.commons.length + pool.uncommons.length = 0
    · rw [if_pos hm]
      have hc : pool.commons = [] := List.length_eq_zero.mp (by omega)
      have hu : pool.uncommons = [] := List.length_eq_zero.mp (by omega)
      by_cases hr : pool.rares.length > 0
      · rw [if_pos hr, hc, hu, List.nil_append, List.nil_append]
        intro hemp
        rw [hemp] at hr
        simp at hr
      · rw [if_neg hr, hc, hu, List.nil_append, List.nil_append]
        exact hall
    · rw [if_neg hm]
      intro hemp
      rcases List.append_eq_nil.mp hemp with ⟨hc, hu⟩
      rw [hc, hu] at hm
      simp at hm
  have hslot10 : (if R.coin (k + 430) then [pickRareOrMythic R (k + 431) pool false]
    else
      match pickFoilCard R (k + 440) pool with
      | some foilCard => [foilCard]
      | none => [pickWildcard R (k + 450) pool]).length = 1 := by
    split
    · rfl
    · split
      · rfl
      · rfl
  unfold generateSetBooster
  simp only [List.length_append, List.length_singleton]
  rw [pickRandomN_length R k _ 6 hmixed,
    safePick_length R (k + 100) pool 2 "uncommon" hall, hslot10,
    landSlot_length R (k + 460) (k + 461) pool hall,
    safePick_length R (k + 560) pool 1 "common" hall]

/-! ## Claim C1 -/

/-- C1: for every card pool built from a non-empty card list, and every
randomness outcome, each family generator returns a booster of exactly its
fixed length: `generatePlayBooster` 14 cards, `generateDraftBooster` 15
cards, `generateSetBooster` 12 cards. -/
theorem c1_family_booster_lengths (R : Rand) (k : Nat)
    (cards : List ScryfallCard) (listFetch : Except String (List ScryfallCard))
    (hne : cards ≠ []) :
    (generatePlayBooster R k (buildCardPool cards) listFetch).length = 14 ∧
    (generateDraftBooster R k (buildCardPool cards)).length = 15 ∧
    (generateSetBooster R k (buildCardPool cards)).length = 12 := by
  have hall : (buildCardPool cards).all ≠ [] := by
    rw [buildCardPool_all]
    exact hne
  exact ⟨generatePlayBooster_length R k _ listFetch hall,
    generateDraftBooster_length R k _ hall,
    generateSetBooster_length R k _ hall⟩

/-- C1 witness: a pool containing a single booster-eligible common card. -/
theorem c1_family_booster_lengths_witness :
    [cardA] ≠ [] ∧
    ((generatePlayBooster idRand 0 (buildCardPool [cardA]) (.ok [])).length = 14 ∧
     (generateDraftBooster idRand 0 (buildCardPool [cardA])).length = 15 ∧
     (generateSetBooster idRand 0 (buildCardPool [cardA])).length = 12) :=
  ⟨by decide, c1_family_booster_lengths idRand 0 [cardA] (.ok []) (by decide)⟩

/-! ## Claim C6 -/

/-- C6 counterexample: on the empty pool, `pickRandomN` returns the empty
list rather than the requested 1 card, so the claim does not hold for all
pools `P`. -/
theorem c6_counterexample :
    ¬ ((pickRandomN idRand 0 ([] : List ScryfallCard) 1).length = 1) := by
  decide

/-- C6 (amended): for every non-empty pool `P` and requested count `N`, and
every randomness outcome, `pickRandomN` returns exactly `N` cards, each drawn
from `P`, and whenever `N ≤ |P|` the result is a sub-permutation of `P`
(repeats can occur only when `P` has fewer elements than the remaining need);
on the empty pool it returns the empty list. -/
theorem c6_pickRandomN_spec (R : Rand) (k : Nat) (arr : List ScryfallCard)
    (n : Nat) (hne : arr ≠ []) :
    (pickRandomN R k arr n).length = n ∧
    (∀ x ∈ pickRandomN R k arr n, x ∈ arr) ∧
    (n ≤ arr.length → List.Subperm (pickRandomN R k arr n) arr) :=
  ⟨pickRandomN_length R k arr n hne, pickRandomN_mem R k arr n,
    fun h => pickRandomN_subperm R k arr n h⟩

/-- C6 witness: drawing 3 cards from a 2-card pool. -/
theorem c6_pickRandomN_spec_witness :
    [cardA, cardB] ≠ [] ∧
    ((pickRandomN idRand 0 [cardA, cardB] 3).length = 3 ∧
     (∀ x ∈ pickRandomN idRand 0 [cardA, cardB] 3, x ∈ [cardA, cardB]) ∧
     (3 ≤ [cardA, cardB].length →
       List.Subperm (pickRandomN idRand 0 [cardA, cardB] 3) [cardA, cardB])) :=
  ⟨by decide, c6_pickRandomN_spec idRand 0 [cardA, cardB] 3 (by decide)⟩

/-! ## Claims C7 and C10: totality of booster generation -/

theorem generateBooster_ok (R : Rand) (k : Nat) (cards : List ScryfallCard)
    (setCode boosterType : String)
    (listFetch : Except String (List ScryfallCard)) (hne : cards ≠ []) :
    ∃ bc, generateBooster R k cards setCode boosterType listFetch =
      .ok { cards := bc, setCode := setCode, boosterType := boosterType } := by
  unfold generateBooster
  rw [if_neg (by simpa [List.length_eq_zero] using hne)]
  exact ⟨_, rfl⟩

/-- C7: `generateBooster` fails exactly on the empty card list; for a
non-empty list it always returns a booster, and a runtime exception raised
inside the family generator (`R.genThrows k`) is caught and replaced by the
generic fallback generation, never propagating to the caller. -/
theorem c7_generateBooster_error_iff (R : Rand) (k : Nat)
    (cards : List ScryfallCard) (setCode boosterType : String)
    (listFetch : Except String (List ScryfallCard)) :
    ((generateBooster R k cards setCode boosterType listFetch).isOk ↔ cards ≠ []) ∧
    (cards ≠ [] → R.genThrows k = true →
      generateBooster R k cards setCode boosterType listFetch =
        .ok { cards := generateGenericBooster R (k + 10000) (buildCardPool cards),
              setCode := setCode, boosterType := boosterType }) := by
  constructor
  · by_cases h : cards = []
    · subst h
      simp [generateBooster, Except.isOk, Except.toBool]
    · have hlen : ¬ cards.length = 0 := by simpa [List.length_eq_zero] using h
      unfold generateBooster
      rw [if_neg hlen]
      simp [Except.isOk, Except.toBool, h]
  · intro hne hthrow
    have hlen : ¬ cards.length = 0 := by simpa [List.length_eq_zero] using hne
    unfold generateBooster
    rw [if_neg hlen]
    simp only [hthrow, if_true]

/-- C7 witness: a singleton card list with a throwing family generator. -/
theorem c7_generateBooster_error_iff_witness :
    [cardA] ≠ [] ∧
    (({ idRand with genThrows := fun _ => true } : Rand).genThrows 0 = true) ∧
    generateBooster { idRand with genThrows := fun _ => true } 0 [cardA] "tst" "play" (.ok []) =
      .ok { cards := generateGenericBooster { idRand with genThrows := fun _ => true } 10000
              (buildCardPool [cardA]),
            setCode := "tst", boosterType := "play" } :=
  ⟨by decide, rfl,
    (c7_generateBooster_error_iff { idRand with genThrows := fun _ => true } 0 [cardA]
      "tst" "play" (.ok [])).right (by decide) rfl⟩

theorem exceptMapM_ok (f : Nat → Except String Booster) (P : Booster → Prop)
    (l : List Nat) (h : ∀ a ∈ l, ∃ b, f a = .ok b ∧ P b) :
    ∃ bs, exceptMapM f l = .ok bs ∧ bs.length = l.length ∧ ∀ b ∈ bs, P b := by
  induction l with
  | nil => exact ⟨[], rfl, rfl, by simp⟩
  | cons a as ih =>
    obtain ⟨b, hfb, hPb⟩ := h a (List.mem_cons_self a as)
    obtain ⟨bs, hbs, hlen, hP⟩ := ih (fun x hx => h x (List.mem_cons_of_mem a hx))
    refine ⟨b :: bs, ?_, by simp [hlen], ?_⟩
    · unfold exceptMapM
      rw [hfb, hbs]
    · intro x hx
      rcases List.mem_cons.mp hx with h1 | h1
      · rw [h1]; exact hPb
      · exact hP x h1

theorem boosterGrid_ok (gen : Nat → Except String Booster) (numberOfPlayers : Nat)
    (P : Booster → Prop) (l : List Nat) (h : ∀ b, ∃ bo, gen b = .ok bo ∧ P bo) :
    ∃ rows, boosterGrid gen numberOfPlayers l = .ok rows ∧
      rows.length = l.length ∧
      ∀ row ∈ rows, row.length = numberOfPlayers ∧ ∀ b ∈ row, P b := by
  induction l with
  | nil => exact ⟨[], rfl, rfl, by simp⟩
  | cons p ps ih =>
    obtain ⟨row, hrow, hrlen, hrP⟩ :=
      exceptMapM_ok (fun q => gen (p * numberOfPlayers + q)) P
        (List.range numberOfPlayers) (fun a _ => h (p * numberOfPlayers + a))
    obtain ⟨rows, hrows, hlen, hP⟩ := ih
    refine ⟨row :: rows, ?_, by simp [hlen], ?_⟩
    · unfold boosterGrid
      rw [hrow, hrows]
    · intro x hx
      rcases List.mem_cons.mp hx with h1 | h1
      · rw [h1]
        exact ⟨by rw [hrlen, List.length_range], hrP⟩
      · exact hP x h1

/-- C10: for every pack count and player count, and any non-empty card list,
`generateDraftBoosters` succeeds with a grid whose outer length is
`numberOfPacks`, whose rows all have length `numberOfPlayers`, and whose
entries are boosters for the requested set code and booster type. -/
theorem c10_generateDraftBoosters_shape (R : Rand) (cards : List ScryfallCard)
    (setCode boosterType : String) (numberOfPacks numberOfPlayers : Nat)
    (listFetch : Nat → Except String (List ScryfallCard)) (hne : cards ≠ []) :
    ∃ grid,
      generateDraftBoosters R cards setCode boosterType numberOfPacks
        numberOfPlayers listFetch = .ok grid ∧
      grid.length = numberOfPacks ∧
      ∀ row ∈ grid, row.length = numberOfPlayers ∧
        ∀ b ∈ row, b.setCode = setCode ∧ b.boosterType = boosterType := by
  obtain ⟨rows, hrows, hlen, hP⟩ :=
    boosterGrid_ok
      (fun b => generateBooster R (b * 100000) cards setCode boosterType (listFetch b))
      numberOfPlayers (fun b => b.setCode = setCode ∧ b.boosterType = boosterType)
      (List.range numberOfPacks)
      (fun b => by
        obtain ⟨bc, hbc⟩ := generateBooster_ok R (b * 100000) cards setCode
          boosterType (listFetch b) hne
        exact ⟨_, hbc, rfl, rfl⟩)
  refine ⟨rows, ?_, by rw [hlen, List.length_range], hP⟩
  unfold generateDraftBoosters
  rw [if_neg (by simpa [List.length_eq_zero] using hne)]
  exact hrows

/-- C10 witness: a 2-pack, 3-player draft over a singleton card list. -/
theorem c10_generateDraftBoosters_shape_witness :
    [cardA] ≠ [] ∧
    ∃ grid,
      generateDraftBoosters idRand [cardA] "tst" "draft" 2 3 (fun _ => .ok []) = .ok grid ∧
      grid.length = 2 ∧
      ∀ row ∈ grid, row.length = 3 ∧
        ∀ b ∈ row, b.setCode = "tst" ∧ b.boosterType = "draft" :=
  ⟨by decide,
    c10_generateDraftBoosters_shape idRand [cardA] "tst" "draft" 2 3
      (fun _ => .ok []) (by decide)⟩

/-! ## Claim C8: the foil picker -/

theorem pickRandom_singleton (R : Rand) (k : Nat) (c : ScryfallCard) :
    pickRandom R k [c] = c := by
  simp [pickRandom, Nat.mod_one]

/-- Every foil-only card of a built pool is foil-eligible and in the full
pool, hence in the foil-eligible filter of `pool.all`. -/
theorem foilOnly_mem_foilable (cards : List ScryfallCard) :
    ∀ c ∈ (buildCardPool cards).foilOnly,
      c ∈ (buildCardPool cards).all.filter canBeFoil := by
  intro c hc
  rw [buildCardPool_foilOnly_eq] at hc
  rw [buildCardPool_all]
  rcases List.mem_filter.mp hc with ⟨hmem, hfo⟩
  refine List.mem_filter.mpr ⟨hmem, ?_⟩
  unfold isFoilOnly at hfo
  unfold canBeFoil
  exact (Bool.and_eq_true_iff.mp hfo).1

/-- C8: on a pool built from a card list, `pickFoilCard` returns `none`
exactly when no foil-eligible card exists anywhere in the pool; every card it
returns is tagged foil; and on a pool whose sole foil-eligible card is a
single foil-only card it returns that card tagged foil for every randomness
outcome, whether or not the 15% foil-only branch is taken. -/
theorem c8_pickFoilCard_spec (R : Rand) (k : Nat) (cards : List ScryfallCard) :
    (pickFoilCard R k (buildCardPool cards) = none ↔
      (buildCardPool cards).all.filter canBeFoil = []) ∧
    (∀ c, pickFoilCard R k (buildCardPool cards) = some c → c.isFoil = true) ∧
    (∀ c0, (buildCardPool cards).all.filter canBeFoil = [c0] →
      (buildCardPool cards).foilOnly = [c0] →
      pickFoilCard R k (buildCardPool cards) = some { c0 with isFoil := true }) := by
  refine ⟨⟨?_, ?_⟩, ?_, ?_⟩
  · intro hnone
    unfold pickFoilCard at hnone
    by_cases h1 : (buildCardPool cards).foilOnly.length > 0 ∧ R.coin k
    · rw [if_pos (by simp [h1.1, h1.2])] at hnone
      exact absurd hnone (by simp)
    · rw [if_neg (by simpa [Bool.and_eq_true_iff] using h1)] at hnone
      by_cases h2 : ((buildCardPool cards).all.filter canBeFoil).length > 0
      · rw [if_pos h2] at hnone
        exact absurd hnone (by simp)
      · exact List.length_eq_zero.mp (by omega)
  · intro hemp
    have hfo : (buildCardPool cards).foilOnly = [] := by
      refine List.eq_nil_iff_forall_not_mem.mpr (fun c hc => ?_)
      have := foilOnly_mem_foilable cards c hc
      rw [hemp] at this
      exact absurd this (by simp)
    unfold pickFoilCard
    rw [if_neg (by simp [hfo]), if_neg (by simp [hemp])]
  · intro c hc
    unfold pickFoilCard at hc
    by_cases h1 : (buildCardPool cards).foilOnly.length > 0 ∧ R.coin k
    · rw [if_pos (by simp [h1.1, h1.2])] at hc
      rcases Option.some.inj hc with h
      rw [← h]
    · rw [if_neg (by simpa [Bool.and_eq_true_iff] using h1)] at hc
      by_cases h2 : ((buildCardPool cards).all.filter canBeFoil).length > 0
      · rw [if_pos h2] at hc
        rcases Option.some.inj hc with h
        rw [← h]
      · rw [if_neg h2] at hc
        exact absurd hc (by simp)
  · intro c0 hfilter hfoilOnly
    unfold pickFoilCard
    by_cases hcoin : R.coin k
    · rw [if_pos (by simp [hfoilOnly, hcoin]), hfoilOnly, pickRandom_singleton]
    · rw [if_neg (by simp [hcoin]), if_pos (by simp [hfilter]), hfilter,
        pickRandom_singleton]

/-- C8 witness: a pool of one ordinary card and one foil-only card, under an
oracle taking the 15% branch and one skipping it. -/
theorem c8_pickFoilCard_spec_witness :
    ((buildCardPool [cardA, cardF]).all.filter canBeFoil = [cardF] ∧
     (buildCardPool [cardA, cardF]).foilOnly = [cardF] ∧
     pickFoilCard idRand 0 (buildCardPool [cardA, cardF]) =
       some { cardF with isFoil := true }) ∧
    pickFoilCard { idRand with coin := fun _ => true } 0 (buildCardPool [cardA, cardF]) =
      some { cardF with isFoil := true } :=
  ⟨⟨by decide, by decide,
    (c8_pickFoilCard_spec idRand 0 [cardA, cardF]).2.2 cardF (by decide) (by decide)⟩,
    (c8_pickFoilCard_spec { idRand with coin := fun _ => true } 0 [cardA, cardF]).2.2
      cardF (by decide) (by decide)⟩

/-! ## Claim C9: the List date filter -/

/-- C9 counterexample: a List of exactly 50 in-window cards and one
out-of-window card.  The date-filtered subset has exactly 50 cards, yet
`fetchListCards` falls back to the unfiltered list (the code requires
strictly more than 50), contradicting the claim that the filtered subset is
used whenever it yields at least 50 cards. -/
theorem c9_counterexample :
    ((List.replicate 50 cardL ++ [cardN]).filter (withinSixMonths 0)).length = 50 ∧
    fetchListCards (List.replicate 50 cardL ++ [cardN]) (some 0) ≠
      (List.replicate 50 cardL ++ [cardN]).filter (withinSixMonths 0) := by
  constructor
  · decide
  · decide

/-- C9 (amended): with a release date supplied, the List is filtered to cards
released within the ±6-month (180-day) window of that date, and the filtered
subset is used exactly when it yields strictly more than 50 cards; with 50 or
fewer cards the unfiltered List is used. -/
theorem c9_fetchListCards_spec (allList : List ScryfallCard) (target : Int) :
    ((allList.filter (withinSixMonths target)).length > 50 →
      fetchListCards allList (some target) = allList.filter (withinSixMonths target)) ∧
    ((allList.filter (withinSixMonths target)).length ≤ 50 →
      fetchListCards allList (some target) = allList) := by
  constructor
  · intro h
    simp only [fetchListCards]
    rw [if_pos h]
  · intro h
    simp only [fetchListCards]
    rw [if_neg (by omega)]

/-- C9 witness: 51 in-window cards keep the filtered subset; 50 in-window
cards plus an out-of-window card fall back to the full list. -/
theorem c9_fetchListCards_spec_witness :
    (((List.replicate 51 cardL).filter (withinSixMonths 0)).length > 50 ∧
      fetchListCards (List.replicate 51 cardL) (some 0) =
        (List.replicate 51 cardL).filter (withinSixMonths 0)) ∧
    (((List.replicate 50 cardL ++ [cardN]).filter (withinSixMonths 0)).length ≤ 50 ∧
      fetchListCards (List.replicate 50 cardL ++ [cardN]) (some 0) =
        List.replicate 50 cardL ++ [cardN]) :=
  ⟨⟨by decide, (c9_fetchListCards_spec (List.replicate 51 cardL) 0).1 (by decide)⟩,
    ⟨by decide, (c9_fetchListCards_spec (List.replicate 50 cardL ++ [cardN]) 0).2 (by decide)⟩⟩

/-! ## Lemmas about the rotation engine -/

theorem getD_range_map {β : Type} [Inhabited β] (n : Nat) (f : Nat → β) (i : Nat)
    (hi : i < n) : ((List.range n).map f).getD i default = f i := by
  rw [List.getD_eq_getElem?_getD, List.getElem?_map, List.getElem?_range hi]
  rfl

theorem getD_map_hand (ps : List PlayerState) (j : Nat) (hj : j < ps.length) :
    (ps.map (fun p => p.currentHand)).getD j [] = (ps.getD j default).currentHand := by
  rw [List.getD_eq_getElem?_getD, List.getElem?_map,
    List.getElem?_eq_getElem hj, List.getD_eq_getElem?_getD,
    List.getElem?_eq_getElem hj]
  rfl

theorem headD_mem (ps : List PlayerState) (hne : ps ≠ []) :
    ps.headD default ∈ ps := by
  cases hp : ps with
  | nil => exact absurd hp hne
  | cons a l => simp [List.headD]

/-! ## Claim C3 -/

/-- C3: when all seats have picked and the pack round is not over (seat 0
still holds cards), rotating on an even-indexed pack gives seat `i` the
remaining hand of seat `(i - 1 + N) % N` (pass left), and on an odd-indexed
pack the remaining hand of seat `(i + 1) % N` (pass right); the direction
depends only on the pack index. -/
theorem c3_rotate_pass_direction (s : DraftState) (hne : s.players ≠ [])
    (_hall : ∀ p ∈ s.players, p.hasPicked = true)
    (hhand : (s.players.headD default).currentHand ≠ [])
    (i : Nat) (hi : i < s.players.length) :
    ((rotatePacks s).players.getD i default).currentHand =
      ((s.players.getD
        ((if s.packNumber % 2 = 0 then i + s.players.length - 1 else i + 1)
          % s.players.length) default).currentHand) := by
  have hn : 0 < s.players.length := List.length_pos.mpr hne
  have hlen : ¬ (s.players.headD default).currentHand.length = 0 := by
    simpa [List.length_eq_zero] using hhand
  unfold rotatePacks
  rw [if_neg hlen]
  by_cases hpar : s.packNumber % 2 = 0
  · rw [if_pos hpar]
    simp only
    rw [getD_range_map s.players.length _ i hi]
    simp only
    rw [getD_map_hand s.players _ (Nat.mod_lt _ hn), if_pos hpar]
  · rw [if_neg hpar]
    simp only
    rw [getD_range_map s.players.length _ i hi]
    simp only
    rw [getD_map_hand s.players _ (Nat.mod_lt _ hn), if_neg hpar]

/-! ## Claim C4 -/

/-- C4: once every seat has picked (and hands, which are dealt and passed
uniformly, all have the same size), the rotation engine advances the pack
counter and deals the next round exactly when every seat's remaining hand is
empty; when some seat still holds cards it performs a pass instead, leaving
the pack counter unchanged. -/
theorem c4_rotate_advance_iff (s : DraftState) (hne : s.players ≠ [])
    (_hall : ∀ p ∈ s.players, p.hasPicked = true)
    (heq : ∀ p ∈ s.players,
      p.currentHand.length = (s.players.headD default).currentHand.length) :
    ((∀ p ∈ s.players, p.currentHand = []) →
      rotatePacks s = openNextPack { s with packNumber := s.packNumber + 1 }) ∧
    ((rotatePacks s).packNumber = s.packNumber + 1 ↔
      ∀ p ∈ s.players, p.currentHand = []) := by
  have hn : 0 < s.players.length := List.length_pos.mpr hne
  have hmem := headD_mem s.players hne
  have hadv : (∀ p ∈ s.players, p.currentHand = []) →
      rotatePacks s = openNextPack { s with packNumber := s.packNumber + 1 } := by
    intro hempty
    unfold rotatePacks
    rw [if_pos (by rw [hempty _ hmem]; rfl)]
  refine ⟨hadv, ⟨?_, ?_⟩⟩
  · intro hpk
    by_cases hhead : (s.players.headD default).currentHand.length = 0
    · intro p hp
      exact List.length_eq_zero.mp (by rw [heq p hp]; exact hhead)
    · exfalso
      unfold rotatePacks at hpk
      rw [if_neg hhead] at hpk
      by_cases hpar : s.packNumber % 2 = 0
      · rw [if_pos hpar] at hpk
        simp at hpk
      · rw [if_neg hpar] at hpk
        simp at hpk
  · intro hempty
    rw [hadv hempty]
    unfold openNextPack
    split
    · rfl
    · rfl

/-- C3 witness: both seats picked on pack 0 of the concrete two-seat state;
seat 0 receives seat 1's hand. -/
theorem c3_rotate_pass_direction_witness :
    (sEx.players ≠ [] ∧ (∀ p ∈ sEx.players, p.hasPicked = true) ∧
      (sEx.players.headD default).currentHand ≠ [] ∧ 0 < sEx.players.length) ∧
    ((rotatePacks sEx).players.getD 0 default).currentHand =
      ((sEx.players.getD
        ((if sEx.packNumber % 2 = 0 then 0 + sEx.players.length - 1 else 0 + 1)
          % sEx.players.length) default).currentHand) :=
  ⟨⟨by decide, by decide, by decide, by decide⟩,
    c3_rotate_pass_direction sEx (by decide) (by decide) (by decide) 0 (by decide)⟩

/-- C4 witness: the concrete two-seat state with equal non-empty hands. -/
theorem c4_rotate_advance_iff_witness :
    (sEx.players ≠ [] ∧ (∀ p ∈ sEx.players, p.hasPicked = true) ∧
      (∀ p ∈ sEx.players,
        p.currentHand.length = (sEx.players.headD default).currentHand.length)) ∧
    (((∀ p ∈ sEx.players, p.currentHand = []) →
      rotatePacks sEx = openNextPack { sEx with packNumber := sEx.packNumber + 1 }) ∧
     ((rotatePacks sEx).packNumber = sEx.packNumber + 1 ↔
      ∀ p ∈ sEx.players, p.currentHand = [])) :=
  ⟨⟨by decide, by decide, by decide⟩,
    c4_rotate_advance_iff sEx (by decide) (by decide) (by decide)⟩

/-! ## Claim C5 -/

theorem findCardIdx_eq_none_iff (cardId : String) (l : List ScryfallCard) :
    findCardIdx cardId l = none ↔ ∀ c ∈ l, ¬(c.id = cardId) := by
  induction l with
  | nil => simp [findCardIdx]
  | cons c cs ih =>
    unfold findCardIdx
    by_cases h : c.id = cardId
    · simp [h]
    · simp only [h, if_neg, List.mem_cons]
      constructor
      · intro hmap
        have hnone : findCardIdx cardId cs = none := by
          cases hf : findCardIdx cardId cs with
          | none => rfl
          | some i =>
            rw [hf] at hmap
            simp [if_neg h] at hmap
        intro x hx
        rcases hx with h1 | h1
        · rw [h1]; simpa using h
        · exact (ih.mp hnone) x h1
      · intro hforall
        rw [if_neg (by simpa using h), ih.mpr (fun x hx => hforall x (Or.inr hx))]
        rfl

theorem findCardIdx_lt_length (cardId : String) :
    ∀ l : List ScryfallCard, ∀ i, findCardIdx cardId l = some i → i < l.length := by
  intro l
  induction l with
  | nil => intro i h; simp [findCardIdx] at h
  | cons c cs ih =>
    intro i h
    unfold findCardIdx at h
    by_cases hc : c.id = cardId
    · rw [if_pos (by simpa using hc)] at h
      rcases Option.some.inj h with rfl
      simp
    · rw [if_neg (by simpa using hc)] at h
      cases hf : findCardIdx cardId cs with
      | none => rw [hf] at h; simp at h
      | some j =>
        rw [hf] at h
        have hji : j + 1 = i := by simpa using h
        have := ih j hf
        simp only [List.length_cons]
        omega

/-- A pick by a seat that has already picked this round is a no-op
(`processPick` line 170). -/
theorem processPick_picked_noop (s : DraftState) (pi : Nat) (cardId : String)
    (p : PlayerState) (hget : s.players[pi]? = some p) (hp : p.hasPicked = true) :
    processPick s pi cardId = s := by
  unfold processPick
  split
  · rfl
  · rename_i player heq
    rw [hget] at heq
    rcases Option.some.inj heq with rfl
    rw [if_pos hp]

/-- A pick of a card id not present in the seat's current hand is a no-op
(`processPick` line 173). -/
theorem processPick_notfound_noop (s : DraftState) (pi : Nat) (cardId : String)
    (p : PlayerState) (hget : s.players[pi]? = some p) (hnp : p.hasPicked = false)
    (hnone : ∀ c ∈ p.currentHand, ¬(c.id = cardId)) :
    processPick s pi cardId = s := by
  unfold processPick
  split
  · rfl
  · rename_i player heq
    rw [hget] at heq
    rcases Option.some.inj heq with rfl
    rw [if_neg (by simp [hnp])]
    split
    · rfl
    · rename_i ci heq2
      rw [(findCardIdx_eq_none_iff cardId p.currentHand).mpr hnone] at heq2
      exact absurd heq2 (by simp)

/-- The successful branch of `processPick` when some other seat has not yet
picked: the card at the found index moves from the hand to the picks, and no
rotation takes place. -/
theorem processPick_success (s : DraftState) (pi : Nat) (cardId : String)
    (p : PlayerState) (ci : Nat) (hget : s.players[pi]? = some p)
    (hnp : p.hasPicked = false)
    (hfind : findCardIdx cardId p.currentHand = some ci)
    (hother : ∃ j q, s.players[j]? = some q ∧ j ≠ pi ∧ q.hasPicked = false) :
    processPick s pi cardId = { s with players := s.players.set pi ({ p with
      currentHand := p.currentHand.eraseIdx ci,
      picks := p.picks ++ [p.currentHand.getD ci default],
      hasPicked := true }) } := by
  obtain ⟨j, q, hgetj, hjne, hq⟩ := hother
  have hallfalse : ¬ ((s.players.set pi
      { p with currentHand := p.currentHand.eraseIdx ci,
               picks := p.picks ++ [p.currentHand.getD ci default],
               hasPicked := true }).all (fun r => r.hasPicked) = true) := by
    intro hall
    have hj : (s.players.set pi
        { p with currentHand := p.currentHand.eraseIdx ci,
                 picks := p.picks ++ [p.currentHand.getD ci default],
                 hasPicked := true })[j]? = some q := by
      rw [List.getElem?_set_ne (Ne.symm hjne)]
      exact hgetj
    have := List.all_eq_true.mp hall q (List.getElem?_mem hj)
    rw [hq] at this
    exact Bool.false_ne_true this
  unfold processPick
  split
  · rename_i heq
    rw [hget] at heq
    exact absurd heq (by simp)
  · rename_i player heq
    rw [hget] at heq
    rcases Option.some.inj heq with rfl
    rw [if_neg (by simp [hnp])]
    split
    · rename_i heq2
      rw [hfind] at heq2
      exact absurd heq2 (by simp)
    · rename_i ci2 heq2
      rw [hfind] at heq2
      rcases Option.some.inj heq2 with rfl
      rw [if_neg hallfalse]

/-- C5: a pick by a seat that already picked this round, or of a card id not
present in that seat's hand, leaves the state unchanged; and when the round
is not completed by the pick (some other seat still unpicked), issuing the
same pick twice changes the state only once and grows that seat's
accumulated picks by exactly one card, not two. -/
theorem c5_processPick_idempotent (s : DraftState) (pi : Nat) (cardId : String)
    (p : PlayerState) (hget : s.players[pi]? = some p) :
    (p.hasPicked = true → processPick s pi cardId = s) ∧
    (p.hasPicked = false → (∀ c ∈ p.currentHand, ¬(c.id = cardId)) →
      processPick s pi cardId = s) ∧
    (p.hasPicked = false → (∃ c ∈ p.currentHand, c.id = cardId) →
      (∃ j q, s.players[j]? = some q ∧ j ≠ pi ∧ q.hasPicked = false) →
      processPick (processPick s pi cardId) pi cardId = processPick s pi cardId ∧
      ∀ r, (processPick (processPick s pi cardId) pi cardId).players[pi]? = some r →
        r.picks.length = p.picks.length + 1) := by
  refine ⟨fun hp => processPick_picked_noop s pi cardId p hget hp,
    fun hnp hnone => processPick_notfound_noop s pi cardId p hget hnp hnone,
    ?_⟩
  intro hnp hmem hother
  have hpi_lt : pi < s.players.length := (List.getElem?_eq_some.mp hget).1
  have hfind : ∃ ci, findCardIdx cardId p.currentHand = some ci := by
    cases hf : findCardIdx cardId p.currentHand with
    | none =>
      obtain ⟨c, hc, hcid⟩ := hmem
      exact absurd hcid ((findCardIdx_eq_none_iff cardId p.currentHand).mp hf c hc)
    | some ci => exact ⟨ci, rfl⟩
  obtain ⟨ci, hci⟩ := hfind
  rw [processPick_success s pi cardId p ci hget hnp hci hother]
  have hget1 : ({ s with players := s.players.set pi ({ p with
      currentHand := p.currentHand.eraseIdx ci,
      picks := p.picks ++ [p.currentHand.getD ci default],
      hasPicked := true }) } : DraftState).players[pi]?
      = some { p with currentHand := p.currentHand.eraseIdx ci,
                      picks := p.picks ++ [p.currentHand.getD ci default],
                      hasPicked := true } := by
    simp only
    exact List.getElem?_set_eq_of_lt _ hpi_lt
  have hnoop := processPick_picked_noop _ pi cardId _ hget1 rfl
  refine ⟨hnoop, ?_⟩
  intro r hr
  rw [hnoop] at hr
  rw [hget1] at hr
  rcases Option.some.inj hr with rfl
  simp

/-- C5 witness: on the freshly dealt two-seat draft, seat 0 picks card `a`
twice while seat 1 has not picked. -/
theorem c5_processPick_idempotent_witness :
    ((initState idsEx packsEx).players[0]? = some
      { id := "p0", picks := [], currentHand := [cardA], hasPicked := false }) ∧
    (({ id := "p0", picks := [], currentHand := [cardA], hasPicked := false } : PlayerState).hasPicked = false ∧
     (∃ c ∈ ({ id := "p0", picks := [], currentHand := [cardA], hasPicked := false } : PlayerState).currentHand, c.id = "a") ∧
     (∃ j q, (initState idsEx packsEx).players[j]? = some q ∧ j ≠ 0 ∧ q.hasPicked = false)) ∧
    (processPick (processPick (initState idsEx packsEx) 0 "a") 0 "a" =
      processPick (initState idsEx packsEx) 0 "a" ∧
     ∀ r, (processPick (processPick (initState idsEx packsEx) 0 "a") 0 "a").players[0]? = some r →
       r.picks.length = 0 + 1) :=
  ⟨by decide,
    ⟨by decide, by decide,
      ⟨1, { id := "p1", picks := [], currentHand := [cardB], hasPicked := false },
        by decide, by decide, by decide⟩⟩,
    ((c5_processPick_idempotent (initState idsEx packsEx) 0 "a"
        { id := "p0", picks := [], currentHand := [cardA], hasPicked := false }
        (by decide)).2.2
      (by decide) (by decide)
      ⟨1, { id := "p1", picks := [], currentHand := [cardB], hasPicked := false },
        by decide, by decide, by decide⟩)⟩

/-! ## Generic list and multiset lemmas for the conservation invariant -/

theorem list_sum_map_add {α : Type} (l : List α)
    (f g : α → Multiset ScryfallCard) :
    (l.map (fun x => f x + g x)).sum = (l.map f).sum + (l.map g).sum := by
  induction l with
  | nil => simp
  | cons a as ih =>
    rw [List.map_cons, List.map_cons, List.map_cons, List.sum_cons,
      List.sum_cons, List.sum_cons, ih, add_add_add_comm]

theorem range_map_getD {α β : Type} [Inhabited α] (l : List α) (f : α → β) :
    (List.range l.length).map (fun i => f (l.getD i default)) = l.map f := by
  apply List.ext_getElem
  · simp
  · intro i h1 h2
    rw [List.getElem_map, List.getElem_map, List.getElem_range]
    have hi : i < l.length := by simpa using h2
    rw [List.getD_eq_getElem?_getD, List.getElem?_eq_getElem hi, Option.getD_some]

theorem map_sum_set (l : List PlayerState)
    (f : PlayerState → Multiset ScryfallCard) :
    ∀ (pi : Nat) (p a : PlayerState), l[pi]? = some p →
      ((l.set pi a).map f).sum + f p = (l.map f).sum + f a := by
  induction l with
  | nil => intro pi p a h; simp at h
  | cons x xs ih =>
    intro pi p a h
    cases pi with
    | zero =>
      have hx : x = p := Option.some.inj (by simpa using h)
      subst hx
      rw [List.set_cons_zero, List.map_cons, List.map_cons, List.sum_cons,
        List.sum_cons, add_right_comm, add_comm (f a) _, add_right_comm]
    | succ n =>
      have hn : xs[n]? = some p := by simpa using h
      rw [List.set_cons_succ, List.map_cons, List.map_cons, List.sum_cons,
        List.sum_cons, add_assoc, add_assoc, ih n p a hn]

theorem getD_cons_eraseIdx_perm :
    ∀ (l : List ScryfallCard) (ci : Nat), ci < l.length →
      List.Perm (l.getD ci default :: l.eraseIdx ci) l := by
  intro l
  induction l with
  | nil => intro ci h; simp at h
  | cons x xs ih =>
    intro ci h
    cases ci with
    | zero => exact List.Perm.refl _
    | succ n =>
      have hn : n < xs.length := by simpa using h
      have h1 : List.Perm (xs.getD n default :: x :: xs.eraseIdx n)
          (x :: xs.getD n default :: xs.eraseIdx n) :=
        List.Perm.swap x (xs.getD n default) (xs.eraseIdx n)
      exact h1.trans ((ih n hn).cons x)

theorem range_map_getD_rotate (l : List (List ScryfallCard)) (c : Nat)
    (hn : 0 < l.length) :
    (List.range l.length).map (fun i => l.getD ((i + c) % l.length) []) =
      l.rotate c := by
  apply List.ext_getElem
  · simp
  · intro i h1 h2
    have hi : i < l.length := by simpa using h2
    have hmod : (i + c) % l.length < l.length := Nat.mod_lt _ hn
    rw [List.getElem_map, List.getElem_range,
      List.getD_eq_getElem?_getD, List.getElem?_eq_getElem hmod, Option.getD_some]
    have hrot := List.getElem?_rotate (l := l) (n := c) (m := i) hi
    rw [List.getElem?_eq_getElem h2, List.getElem?_eq_getElem hmod] at hrot
    exact (Option.some.inj hrot).symm

theorem handsPlusPicks_split (s : DraftState) :
    handsPlusPicks s = handsM s + allPicks s := by
  unfold handsPlusPicks handsM allPicks
  exact list_sum_map_add s.players _ _

theorem dealtUpTo_succ (s : DraftState) (u : Nat) :
    dealtUpTo s (u + 1) = dealtUpTo s u + roundM s u := by
  unfold dealtUpTo roundM
  rw [List.map_congr_left (g := fun i =>
      (((List.range u).map (fun r =>
        ((s.unopenedPacks.getD i []).getD r [] : Multiset ScryfallCard))).sum +
        ((s.unopenedPacks.getD i []).getD u [] : Multiset ScryfallCard)))
    (fun i _ => by rw [List.range_succ, List.map_append, List.sum_append]; simp)]
  exact list_sum_map_add _ _ _

theorem dealtUpTo_zero (s : DraftState) : dealtUpTo s 0 = 0 := by
  unfold dealtUpTo
  simp

/-- `rotatePacks` in the advance case. -/
theorem rotatePacks_advance (s : DraftState)
    (hhand : (s.players.headD default).currentHand.length = 0) :
    rotatePacks s = openNextPack { s with packNumber := s.packNumber + 1 } := by
  unfold rotatePacks
  rw [if_pos hhand]

/-- `rotatePacks` in the pass case, with the pass direction as the source
index map `σ` (left for even pack index, right for odd). -/
theorem rotatePacks_pass (s : DraftState)
    (hhand : ¬ (s.players.headD default).currentHand.length = 0) :
    rotatePacks s = { s with players :=
      (List.range s.players.length).map (fun i =>
        { s.players.getD i default with
          currentHand := (s.players.map (fun p => p.currentHand)).getD
            ((if s.packNumber % 2 = 0 then i + s.players.length - 1 else i + 1)
              % s.players.length) []
          hasPicked := false }) } := by
  unfold rotatePacks
  rw [if_neg hhand]
  by_cases hpar : s.packNumber % 2 = 0
  · rw [if_pos hpar]
    simp only [hpar, if_true]
  · rw [if_neg hpar]
    simp only [hpar, if_false]

/-- `openNextPack` past the last pack changes nothing. -/
theorem openNextPack_stop (s : DraftState) (h : s.totalPacks ≤ s.packNumber) :
    openNextPack s = s := by
  unfold openNextPack
  rw [if_pos h]

/-- `openNextPack` within range deals round `packNumber` to every seat. -/
theorem openNextPack_deal (s : DraftState) (h : s.packNumber < s.totalPacks) :
    openNextPack s = { s with players :=
      (List.range s.players.length).map (fun i =>
        { s.players.getD i default with
          currentHand := (s.unopenedPacks.getD i []).getD s.packNumber []
          hasPicked := false }) } := by
  unfold openNextPack
  rw [if_neg (by omega)]

theorem dealtCards_set (s : DraftState) (pi : Nat) (a : PlayerState) :
    dealtCards { s with players := s.players.set pi a } = dealtCards s := by
  unfold dealtCards dealtRounds dealtUpTo
  simp only [List.length_set]

theorem allPicks_range_map (s : DraftState) (hand : Nat → List ScryfallCard) :
    allPicks { s with players := (List.range s.players.length).map (fun i =>
      { s.players.getD i default with currentHand := hand i, hasPicked := false }) }
      = allPicks s := by
  unfold allPicks
  simp only [List.map_map]
  have hcomp : ((fun p => (p.picks : Multiset ScryfallCard)) ∘ (fun i => ({ s.players.getD i default with currentHand := hand i, hasPicked := false } : PlayerState))) = fun i => ((s.players.getD i default).picks : Multiset ScryfallCard) := rfl
  rw [hcomp, range_map_getD s.players (fun p => (p.picks : Multiset ScryfallCard))]

theorem dealtUpTo_range_map (s : DraftState) (f : Nat → PlayerState) (u : Nat) :
    dealtUpTo { s with players := (List.range s.players.length).map f } u =
      dealtUpTo s u := by
  unfold dealtUpTo
  simp

theorem dealtCards_range_map (s : DraftState) (f : Nat → PlayerState) :
    dealtCards { s with players := (List.range s.players.length).map f } =
      dealtCards s := by
  unfold dealtCards dealtRounds
  rw [dealtUpTo_range_map]

theorem handsM_range_map (s : DraftState) (hand : Nat → List ScryfallCard) :
    handsM { s with players := (List.range s.players.length).map (fun i =>
      { s.players.getD i default with currentHand := hand i, hasPicked := false }) }
      = ((List.range s.players.length).map (fun i =>
          (hand i : Multiset ScryfallCard))).sum := by
  unfold handsM
  simp only [List.map_map]
  rfl

theorem pass_hands_perm (hands : List (List ScryfallCard))
    (hn : 0 < hands.length) (c : Nat) :
    List.Perm ((List.range hands.length).map
      (fun i => hands.getD ((i + c) % hands.length) [])) hands := by
  rw [range_map_getD_rotate hands c hn]
  exact hands.rotate_perm c

/-- Preservation of the invariant by a successful pick (the state between
the hand update and the possible rotation). -/
theorem inv_set (ids : List String) (allPacks : List (List (List ScryfallCard)))
    (s : DraftState) (hinv : Inv ids allPacks s) (pi ci : Nat) (p : PlayerState)
    (hget : s.players[pi]? = some p) (hnp : p.hasPicked = false)
    (hci : ci < p.currentHand.length) :
    Inv ids allPacks { s with players := s.players.set pi ({ p with
      currentHand := p.currentHand.eraseIdx ci,
      picks := p.picks ++ [p.currentHand.getD ci default],
      hasPicked := true }) } := by
  have hlt : s.packNumber < s.totalPacks := by
    rcases Nat.lt_or_ge s.packNumber s.totalPacks with h | h
    · exact h
    · exfalso
      have hterm := hinv.terminal (le_antisymm hinv.pk_le h) p (List.getElem?_mem hget)
      rw [hterm] at hci
      simp at hci
  have hperm : (p.currentHand : Multiset ScryfallCard) =
      ↑(p.currentHand.getD ci default :: p.currentHand.eraseIdx ci) :=
    (Multiset.coe_eq_coe.mpr (getD_cons_eraseIdx_perm p.currentHand ci hci)).symm
  refine ⟨?_, hinv.packs_eq, hinv.total_eq, hinv.pk_le, ?_, ?_, ?_⟩
  · rw [List.length_set]
    exact hinv.players_len
  · rw [dealtCards_set, ← hinv.conserve]
    unfold handsPlusPicks
    have hmss := map_sum_set s.players
      (fun q => (q.currentHand : Multiset ScryfallCard) + (q.picks : Multiset ScryfallCard))
      pi p ({ p with
        currentHand := p.currentHand.eraseIdx ci,
        picks := p.picks ++ [p.currentHand.getD ci default],
        hasPicked := true }) hget
    simp only at hmss
    have hfeq : ((p.currentHand.eraseIdx ci : List ScryfallCard) : Multiset ScryfallCard)
        + ↑(p.picks ++ [p.currentHand.getD ci default])
        = (p.currentHand : Multiset ScryfallCard) + ↑p.picks := by
      rw [hperm]
      show (↑(p.currentHand.eraseIdx ci) : Multiset ScryfallCard) +
          (↑p.picks + ↑[p.currentHand.getD ci default]) =
        (↑[p.currentHand.getD ci default] + ↑(p.currentHand.eraseIdx ci)) + ↑p.picks
      rw [add_comm (↑[p.currentHand.getD ci default] : Multiset ScryfallCard) _,
        add_assoc, add_comm (↑[p.currentHand.getD ci default] : Multiset ScryfallCard) _,
        ← add_assoc]
    rw [hfeq] at hmss
    exact add_right_cancel hmss
  · obtain ⟨m, hm⟩ := hinv.uniform
    refine ⟨m, fun q hq => ?_⟩
    rcases List.mem_or_eq_of_mem_set hq with hq1 | hq1
    · exact hm q hq1
    · subst hq1
      have hpm := hm p (List.getElem?_mem hget)
      rw [hnp] at hpm
      simp only [Bool.false_eq_true, if_false, Nat.add_zero] at hpm
      simp only [if_true]
      rw [List.length_eraseIdx]
      simp only [hci, if_pos]
      omega
  · intro hterm
    exfalso
    have h2 : s.packNumber = s.totalPacks := hterm
    omega

/-- Preservation of the invariant by dealing the next round (or finishing)
from a state with empty hands and uniform pick flags. -/
theorem inv_deal (ids : List String) (allPacks : List (List (List ScryfallCard)))
    (hok : PacksOK ids allPacks) (s : DraftState)
    (hplen : s.players.length = ids.length)
    (hpacks : s.unopenedPacks = allPacks)
    (htot : s.totalPacks = (allPacks.getD 0 []).length)
    (hle : s.packNumber ≤ s.totalPacks)
    (hhands : ∀ p ∈ s.players, p.currentHand = [])
    (hflags : ∃ b, ∀ p ∈ s.players, p.hasPicked = b)
    (hconserve : allPicks s = dealtUpTo s s.packNumber) :
    Inv ids allPacks (openNextPack s) := by
  have hhm : handsM s = 0 := by
    unfold handsM
    rw [List.map_congr_left (g := fun _ => (0 : Multiset ScryfallCard))
      (fun p hp => by rw [hhands p hp]; rfl)]
    simp
  rcases Nat.lt_or_ge s.packNumber s.totalPacks with hlt | hge
  · rw [openNextPack_deal s hlt]
    refine ⟨?_, hpacks, htot, hle, ?_, ?_, ?_⟩
    · simp only [List.length_map, List.length_range]
      exact hplen
    · rw [handsPlusPicks_split, allPicks_range_map, handsM_range_map]
      have hround : ((List.range s.players.length).map (fun i =>
          (((s.unopenedPacks.getD i []).getD s.packNumber [] : List ScryfallCard) :
            Multiset ScryfallCard))).sum = roundM s s.packNumber := rfl
      rw [hround]
      rw [dealtCards_range_map]
      unfold dealtCards dealtRounds
      rw [min_eq_left (by omega), dealtUpTo_succ, hconserve, add_comm]
    · refine ⟨((allPacks.getD 0 []).getD s.packNumber []).length, fun q hq => ?_⟩
      obtain ⟨i, hi, rfl⟩ := List.mem_map.mp hq
      simp only [Bool.false_eq_true, if_false, Nat.add_zero]
      have hiN : i < s.players.length := List.mem_range.mp hi
      have hiA : i < allPacks.length := by
        rw [hok.len_eq]
        omega
      have hmem : allPacks.getD i [] ∈ allPacks := by
        rw [List.getD_eq_getElem?_getD, List.getElem?_eq_getElem hiA, Option.getD_some]
        exact List.getElem_mem hiA
      have hsz := hok.sizes_eq s.packNumber (allPacks.getD i []) hmem
      rw [hpacks]
      omega
    · intro hterm
      exfalso
      have : s.packNumber = s.totalPacks := hterm
      omega
  · rw [openNextPack_stop s hge]
    have hpk : s.packNumber = s.totalPacks := le_antisymm hle hge
    refine ⟨hplen, hpacks, htot, hle, ?_, ?_, fun _ => hhands⟩
    · rw [handsPlusPicks_split, hhm, zero_add, hconserve]
      unfold dealtCards dealtRounds
      rw [hpk, min_eq_right (by omega)]
    · obtain ⟨b, hb⟩ := hflags
      refine ⟨if b then 1 else 0, fun q hq => ?_⟩
      rw [hhands q hq, hb q hq]
      simp

/-- Preservation of the invariant by a pass: the new hands are the old hands
indexed through `σ`, assumed to permute them. -/
theorem inv_pass (ids : List String) (allPacks : List (List (List ScryfallCard)))
    (s : DraftState) (hinv : Inv ids allPacks s)
    (hallp : ∀ p ∈ s.players, p.hasPicked = true)
    (hlt : s.packNumber < s.totalPacks) (σ : Nat → Nat)
    (hperm : List.Perm ((List.range s.players.length).map
      (fun i => (s.players.map (fun p => p.currentHand)).getD (σ i) []))
      (s.players.map (fun p => p.currentHand))) :
    Inv ids allPacks { s with players :=
      (List.range s.players.length).map (fun i =>
        { s.players.getD i default with
          currentHand := (s.players.map (fun p => p.currentHand)).getD (σ i) []
          hasPicked := false }) } := by
  refine ⟨?_, hinv.packs_eq, hinv.total_eq, hinv.pk_le, ?_, ?_, ?_⟩
  · simp only [List.length_map, List.length_range]
    exact hinv.players_len
  · rw [handsPlusPicks_split, allPicks_range_map, handsM_range_map,
      dealtCards_range_map, ← hinv.conserve, handsPlusPicks_split]
    have hstep : (List.range s.players.length).map (fun i =>
        (((s.players.map (fun p => p.currentHand)).getD (σ i) [] : List ScryfallCard) :
          Multiset ScryfallCard)) =
        ((List.range s.players.length).map
          (fun i => (s.players.map (fun p => p.currentHand)).getD (σ i) [])).map
          (fun (l : List ScryfallCard) => (l : Multiset ScryfallCard)) := by
      rw [List.map_map]
      rfl
    rw [hstep,
      (hperm.map (fun (l : List ScryfallCard) => (l : Multiset ScryfallCard))).sum_eq,
      List.map_map]
    rfl
  · obtain ⟨m, hm⟩ := hinv.uniform
    refine ⟨m - 1, fun q hq => ?_⟩
    obtain ⟨i, hi, rfl⟩ := List.mem_map.mp hq
    simp only [Bool.false_eq_true, if_false, Nat.add_zero]
    have hmem1 : (s.players.map (fun p => p.currentHand)).getD (σ i) [] ∈
        (List.range s.players.length).map
          (fun j => (s.players.map (fun p => p.currentHand)).getD (σ j) []) :=
      List.mem_map.mpr ⟨i, hi, rfl⟩
    obtain ⟨p1, hp1, hhand⟩ := List.mem_map.mp (hperm.mem_iff.mp hmem1)
    rw [← hhand]
    have hpm := hm p1 hp1
    rw [hallp p1 hp1] at hpm
    simp only [if_true] at hpm
    omega
  · intro hterm
    exfalso
    have h2 : s.packNumber = s.totalPacks := hterm
    omega

/-- Preservation of the invariant by `rotatePacks` from an all-picked state
inside the draft. -/
theorem inv_rotate (ids : List String) (allPacks : List (List (List ScryfallCard)))
    (hok : PacksOK ids allPacks) (s1 : DraftState) (hinv1 : Inv ids allPacks s1)
    (hallp : ∀ p ∈ s1.players, p.hasPicked = true) (hne : s1.players ≠ [])
    (hlt : s1.packNumber < s1.totalPacks) :
    Inv ids allPacks (rotatePacks s1) := by
  by_cases hhead : (s1.players.headD default).currentHand.length = 0
  · have hempty : ∀ p ∈ s1.players, p.currentHand = [] := by
      obtain ⟨m, hm⟩ := hinv1.uniform
      have hhm := hm _ (headD_mem s1.players hne)
      rw [hallp _ (headD_mem s1.players hne)] at hhm
      simp only [if_true] at hhm
      intro p hp
      have hpm := hm p hp
      rw [hallp p hp] at hpm
      simp only [if_true] at hpm
      exact List.length_eq_zero.mp (by omega)
    have hhm0 : handsM s1 = 0 := by
      unfold handsM
      rw [List.map_congr_left (g := fun _ => (0 : Multiset ScryfallCard))
        (fun p hp => by rw [hempty p hp]; rfl)]
      simp
    rw [rotatePacks_advance s1 hhead]
    apply inv_deal ids allPacks hok
    · exact hinv1.players_len
    · exact hinv1.packs_eq
    · exact hinv1.total_eq
    · show s1.packNumber + 1 ≤ s1.totalPacks
      omega
    · exact hempty
    · exact ⟨true, hallp⟩
    · show allPicks s1 = dealtUpTo s1 (s1.packNumber + 1)
      have hc := hinv1.conserve
      rw [handsPlusPicks_split, hhm0, zero_add] at hc
      rw [hc]
      unfold dealtCards dealtRounds
      rw [min_eq_left (by omega)]
  · rw [rotatePacks_pass s1 hhead]
    have hn : 0 < s1.players.length := List.length_pos.mpr hne
    have hlen : (s1.players.map (fun p => p.currentHand)).length = s1.players.length :=
      List.length_map _ _
    apply inv_pass ids allPacks s1 hinv1 hallp hlt
    by_cases hpar : s1.packNumber % 2 = 0
    · rw [List.map_congr_left (g := fun i =>
        (s1.players.map (fun p => p.currentHand)).getD
          ((i + (s1.players.length - 1)) % s1.players.length) [])
        (fun i _ => by
          rw [if_pos hpar, show i + s1.players.length - 1 =
            i + (s1.players.length - 1) from by omega])]
      rw [← hlen]
      exact pass_hands_perm _ (by omega) _
    · rw [List.map_congr_left (g := fun i =>
        (s1.players.map (fun p => p.currentHand)).getD
          ((i + 1) % s1.players.length) [])
        (fun i _ => by rw [if_neg hpar])]
      rw [← hlen]
      exact pass_hands_perm _ (by omega) _

/-- Preservation of the invariant by any pick request. -/
theorem inv_processPick (ids : List String)
    (allPacks : List (List (List ScryfallCard))) (hok : PacksOK ids allPacks)
    (s : DraftState) (hinv : Inv ids allPacks s) (pi : Nat) (cardId : String) :
    Inv ids allPacks (processPick s pi cardId) := by
  unfold processPick
  split
  · exact hinv
  · rename_i p hget
    by_cases hp : p.hasPicked
    · rw [if_pos hp]
      exact hinv
    · rw [if_neg hp]
      split
      · exact hinv
      · rename_i ci hfind
        have hnp : p.hasPicked = false := by simpa using hp
        have hci : ci < p.currentHand.length :=
          findCardIdx_lt_length cardId p.currentHand ci hfind
        have hinv1 := inv_set ids allPacks s hinv pi ci p hget hnp hci
        have hlt : s.packNumber < s.totalPacks := by
          rcases Nat.lt_or_ge s.packNumber s.totalPacks with h | h
          · exact h
          · exfalso
            have hterm := hinv.terminal (le_antisymm hinv.pk_le h) p
              (List.getElem?_mem hget)
            rw [hterm] at hci
            simp at hci
        dsimp only
        split
        · rename_i hall
          apply inv_rotate ids allPacks hok _ hinv1
          · exact fun q hq => List.all_eq_true.mp hall q hq
          · intro hemp
            have hlen0 := congrArg List.length hemp
            rw [List.length_set] at hlen0
            have := hinv.players_len
            have hne := hok.ids_ne
            simp at hlen0
            rw [hlen0] at this
            exact hne (List.eq_nil_of_length_eq_zero this.symm)
          · exact hlt
        · exact hinv1


/-- The invariant holds at the start of a hosted draft. -/
theorem inv_init (ids : List String) (allPacks : List (List (List ScryfallCard)))
    (hok : PacksOK ids allPacks) : Inv ids allPacks (initState ids allPacks) := by
  unfold initState startDraft
  apply inv_deal ids allPacks hok
  · simp
  · rfl
  · rfl
  · exact Nat.zero_le _
  · intro p hp
    obtain ⟨x, hx, rfl⟩ := List.mem_map.mp hp
    rfl
  · refine ⟨false, fun p hp => ?_⟩
    obtain ⟨x, hx, rfl⟩ := List.mem_map.mp hp
    rfl
  · show allPicks _ = dealtUpTo _ 0
    rw [dealtUpTo_zero]
    unfold allPicks
    apply List.sum_eq_zero
    intro x hx
    obtain ⟨q, hq, rfl⟩ := List.mem_map.mp hx
    obtain ⟨y, hy, rfl⟩ := List.mem_map.mp hq
    rfl

/-- The invariant holds at every reachable state. -/
theorem inv_reach (ids : List String) (allPacks : List (List (List ScryfallCard)))
    (hok : PacksOK ids allPacks) (s : DraftState)
    (h : Reach (initState ids allPacks) s) : Inv ids allPacks s := by
  induction h with
  | refl => exact inv_init ids allPacks hok
  | pick pi cardId _ ih => exact inv_processPick ids allPacks hok _ ih pi cardId

/-! ## Claim C2 -/

/-- C2: at every state of the rotation engine reachable from `startDraft` on
a well-formed pack grid by any sequence of pick requests, the multiset of
cards held in all seats' current hands plus all seats' accumulated picks
equals the multiset of cards dealt so far; and at draft completion (pack
counter at the pack count) the multiset of all accumulated picks equals the
multiset of all cards dealt across all pack rounds. -/
theorem c2_conservation (ids : List String)
    (allPacks : List (List (List ScryfallCard))) (s : DraftState)
    (hok : PacksOK ids allPacks) (hreach : Reach (initState ids allPacks) s) :
    handsPlusPicks s = dealtCards s ∧
    (s.packNumber = s.totalPacks → allPicks s = dealtUpTo s s.totalPacks) := by
  have hinv := inv_reach ids allPacks hok s hreach
  refine ⟨hinv.conserve, fun hterm => ?_⟩
  have hempty := hinv.terminal hterm
  have hhm : handsM s = 0 := by
    unfold handsM
    apply List.sum_eq_zero
    intro x hx
    obtain ⟨q, hq, rfl⟩ := List.mem_map.mp hx
    rw [hempty q hq]
    rfl
  have hc := hinv.conserve
  rw [handsPlusPicks_split, hhm, zero_add] at hc
  rw [hc]
  unfold dealtCards dealtRounds
  rw [hterm, min_eq_right (by omega)]

/-- C2 witness: the freshly started two-seat, one-round draft, and the same
draft after both seats picked their only card (a complete run). -/
theorem c2_conservation_witness :
    (PacksOK idsEx packsEx ∧
      handsPlusPicks (initState idsEx packsEx) = dealtCards (initState idsEx packsEx)) ∧
    (handsPlusPicks (processPick (processPick (initState idsEx packsEx) 0 "a") 1 "b") =
        dealtCards (processPick (processPick (initState idsEx packsEx) 0 "a") 1 "b") ∧
      ((processPick (processPick (initState idsEx packsEx) 0 "a") 1 "b").packNumber =
          (processPick (processPick (initState idsEx packsEx) 0 "a") 1 "b").totalPacks →
        allPicks (processPick (processPick (initState idsEx packsEx) 0 "a") 1 "b") =
          dealtUpTo (processPick (processPick (initState idsEx packsEx) 0 "a") 1 "b")
            (processPick (processPick (initState idsEx packsEx) 0 "a") 1 "b").totalPacks)) :=
  have hok : PacksOK idsEx packsEx :=
    ⟨by decide, rfl, by decide, fun r pl hpl => by
      have h2 : pl = [[cardA]] ∨ pl = [[cardB]] := by simpa [packsEx] using hpl
      rcases h2 with rfl | rfl <;> cases r <;> rfl⟩
  ⟨⟨hok, (c2_conservation idsEx packsEx _ hok Reach.refl).1⟩,
    c2_conservation idsEx packsEx _ hok
      (Reach.pick 1 "b" (Reach.pick 0 "a" Reach.refl))⟩

end MtgDraft
